import Mathlib

/-!
Verification of the worker-process supervisor in `bot.py` against its
specification.  The Python module manages a registry of Telegram child
bots: `BotManager` keeps a dict `processes : bot_id → BotProcess` and a
dict `tokens : bot_id → token`, persists `tokens` to a JSON file on every
mutation, and re-spawns saved bots at startup.  We embed the manager and
its operations (`add_bot`, `remove_bot`, `stop_all_bots`, `save_bots`,
`load_saved_bots`, the `handle_token` message handler and the
`stop_specific_bot` callback) as pure Lean functions over explicit state.

External collaborators are shallowly embedded as parameters:
the result of the Telegram `validate_token` HTTP call is a boolean input,
`process.start()` either succeeds or raises according to an environment
function, and whether an OS process exits within the `join(timeout=5)`
grace period after `terminate()` is a boolean attribute of the process.
Python dicts are insertion-ordered association lists with unique keys;
`d[k] = v` replaces in place or appends, `del d[k]` removes the entry.
JSON round-tripping of a string-to-string dict is lossless, so the
persisted file is modelled as holding the association list itself (or
being missing, or being unparseable).
-/

/-- Maximum number of simultaneously running bots (`MAX_BOTS = 10`). -/
def MAX_BOTS : Nat := 10

/-- Python dict assignment `d[k] = v`: replace the value at the first
occurrence of `k`, keeping its position, or append `(k, v)` when `k` is
absent. -/
def dictSet {α : Type} : List (String × α) → String → α → List (String × α)
  | [], k, v => [(k, v)]
  | (a, b) :: t, k, v => if a = k then (k, v) :: t else (a, b) :: dictSet t k v

/-- Python `del d[k]` (on a dict, where keys occur at most once): drop the
first entry whose key is `k`; unchanged when `k` is absent. -/
def dictErase {α : Type} : List (String × α) → String → List (String × α)
  | [], _ => []
  | (a, b) :: t, k => if a = k then t else (a, b) :: dictErase t k

/-- Python `d[k]` lookup, as an option: the value at the first occurrence
of `k`. -/
def dictGet {α : Type} : List (String × α) → String → Option α
  | [], _ => none
  | (a, b) :: t, k => if a = k then some b else dictGet t k

/-- The keys of a dict, in order. -/
def keys {α : Type} (d : List (String × α)) : List String := d.map Prod.fst

/-- The values of a dict, in order (Python `d.values()`). -/
def dictValues {α : Type} (d : List (String × α)) : List α := d.map Prod.snd

/-- Model of `BotProcess(token, bot_id)` after `start()`: the spawned OS
process.  `alive` is what `is_alive()` reports; `exitsOnTerminate` is the
environment fact of whether the process exits within the `join(timeout=5)`
grace period once `terminate()` is requested. -/
structure BotProcess where
  token : String
  bot_id : String
  alive : Bool
  exitsOnTerminate : Bool
  deriving DecidableEq, Repr

/-- Constructing and starting a `BotProcess`: `BotProcess(token, bot_id)`
followed by `process.start()` yields a live process. -/
def BotProcess.mkStarted (token bot_id : String) (exitsOnTerminate : Bool) :
    BotProcess :=
  ⟨token, bot_id, true, exitsOnTerminate⟩

/-- The effect of `process.terminate(); process.join(timeout=5)` on a live
process, and of skipping both on a dead one (guarded by `is_alive()` in
`remove_bot`): afterwards the process is alive exactly when it was alive
and does not exit on the terminate request within the grace period.  The
code never calls `kill()`. -/
def terminateJoin (p : BotProcess) : BotProcess :=
  if p.alive then { p with alive := !p.exitsOnTerminate } else p

/-- Content of the persistence file `running_bots.json`: absent, present
but unparseable, or a parsed `tokens` mapping `bot_id → token`. -/
inductive FileState : Type where
  | missing : FileState
  | corrupt : FileState
  | data (tokens : List (String × String)) : FileState
  deriving DecidableEq, Repr

/-- The `bot_id → token` entries readable from the persistence file
(`data.get('tokens', {})`, with a missing or corrupt file giving none). -/
def FileState.entries : FileState → List (String × String)
  | .missing => []
  | .corrupt => []
  | .data tks => tks

/-- State of `BotManager` together with the persistence file it owns:
`processes` and `tokens` are the two dicts, `file` is the current content
of `running_bots.json`. -/
structure BotManager where
  processes : List (String × BotProcess)
  tokens : List (String × String)
  file : FileState
  deriving DecidableEq, Repr

namespace BotManager

/-- Source `get_bot_count`: `len(self.processes)`. -/
def get_bot_count (m : BotManager) : Nat := m.processes.length

/-- Source `is_token_used`: `token in self.tokens.values()`. -/
def is_token_used (m : BotManager) (token : String) : Bool :=
  (dictValues m.tokens).contains token

/-- Source `save_bots`: write `{'tokens': self.tokens}` to the file. -/
def save_bots (m : BotManager) : BotManager :=
  { m with file := FileState.data m.tokens }

/-- Source `add_bot`: insert the process and the token under `bot_id`,
then persist. -/
def add_bot (m : BotManager) (bot_id : String) (token : String)
    (process : BotProcess) : BotManager :=
  save_bots { m with
    processes := dictSet m.processes bot_id process,
    tokens := dictSet m.tokens bot_id token }

/-- Source `remove_bot`, also reporting the post-termination state of the
removed OS process (when one was tracked): if `bot_id` is in `processes`,
terminate the process if alive, join with the 5-second timeout, and delete
the entry; then, if `bot_id` is in `tokens`, delete it there and persist. -/
def remove_bot_run (m : BotManager) (bot_id : String) :
    BotManager × Option BotProcess :=
  let step1 : BotManager × Option BotProcess :=
    match dictGet m.processes bot_id with
    | some process =>
        ({ m with processes := dictErase m.processes bot_id },
         some (terminateJoin process))
    | none => (m, none)
  let m1 := step1.1
  if (keys m1.tokens).contains bot_id then
    (save_bots { m1 with tokens := dictErase m1.tokens bot_id }, step1.2)
  else (m1, step1.2)

/-- Source `remove_bot`, state effect only. -/
def remove_bot (m : BotManager) (bot_id : String) : BotManager :=
  (remove_bot_run m bot_id).1

/-- Source `stop_all_bots`: `remove_bot` for every key of a snapshot of
`processes` taken before the loop. -/
def stop_all_bots (m : BotManager) : BotManager :=
  (keys m.processes).foldl remove_bot m

end BotManager

/-- The re-spawn loop of `load_saved_bots`, run inside the surrounding
`try`: for each saved `(bot_id, token)` construct `BotProcess(token,
bot_id)` and `start()` it.  `env bot_id token` is `some e` when the start
succeeds (with grace-period behaviour `e`) and `none` when it raises, in
which case the exception propagates to the `except` clause: the loop stops
and the flag records that an error was caught and logged. -/
def restartLoop (env : String → String → Option Bool) :
    List (String × String) → List (String × BotProcess) →
    List (String × BotProcess) × Bool
  | [], acc => (acc, false)
  | (bot_id, token) :: rest, acc =>
    match env bot_id token with
    | some e => restartLoop env rest
        (dictSet acc bot_id (BotProcess.mkStarted token bot_id e))
    | none => (acc, true)

/-- Source `load_saved_bots` on a fresh manager (it runs in `__init__`,
where both dicts are empty), also reporting whether the `except` clause
caught an exception: a missing file is skipped; a corrupt file makes
`json.load` raise, which is caught, leaving the registry empty; a parsed
file sets `tokens` to the stored mapping and then re-spawns each entry. -/
def load_saved_bots_run (env : String → String → Option Bool)
    (file : FileState) : BotManager × Bool :=
  match file with
  | .missing => (⟨[], [], .missing⟩, false)
  | .corrupt => (⟨[], [], .corrupt⟩, true)
  | .data tks =>
    let r := restartLoop env tks []
    (⟨r.1, tks, .data tks⟩, r.2)

/-- Source `load_saved_bots`, state effect only: the `BotManager` as built
by `__init__` from the persistence file. -/
def load_saved_bots (env : String → String → Option Bool)
    (file : FileState) : BotManager :=
  (load_saved_bots_run env file).1

/-- Result reported back to the user by the `handle_token` handler. -/
inductive AddResult : Type where
  | invalidCredential : AddResult
  | duplicateCredential : AddResult
  | capacityExceeded : AddResult
  | success (bot_id : String) : AddResult
  deriving DecidableEq, Repr

/-- The worker id minted on success:
`f"bot_{datetime.now().strftime('%Y%m%d_%H%M%S')}"`, a pure function of
the current timestamp string. -/
def mint_id (now : String) : String := "bot_" ++ now

/-- Python `str.strip()` on the left edge of a character list. -/
def stripLeading (l : List Char) : List Char := l.dropWhile Char.isWhitespace

/-- Python `str.strip()`: drop whitespace from both ends. -/
def pyStrip (s : String) : String :=
  ⟨(stripLeading ((stripLeading s.data).reverse)).reverse⟩

/-- Source `handle_token` (identical in the main and child dispatchers):
strip the message text, reject when `validate_token` answered false, then
when the token is already used, then when the bot count has reached
`MAX_BOTS`; otherwise mint `new_bot_id` from the current timestamp, start
a `BotProcess`, and `add_bot` it.  `tokenValid` is the answer of the
external `validate_token` call; `now` the timestamp string; `e` the
spawned process's grace-period behaviour. -/
def handle_token (m : BotManager) (text : String) (tokenValid : Bool)
    (now : String) (e : Bool) : AddResult × BotManager :=
  let token := pyStrip text
  if !tokenValid then (AddResult.invalidCredential, m)
  else if m.is_token_used token then (AddResult.duplicateCredential, m)
  else if MAX_BOTS ≤ m.get_bot_count then (AddResult.capacityExceeded, m)
  else
    let new_bot_id := mint_id now
    let process := BotProcess.mkStarted token new_bot_id e
    (AddResult.success new_bot_id, m.add_bot new_bot_id token process)

/-- Answer of the `stop_specific_bot` callback. -/
inductive StopResult : Type where
  | stopped (bot_id : String) : StopResult
  | notFound : StopResult
  deriving DecidableEq, Repr

/-- Python `callback.data.replace("stop_", "")`: remove every occurrence
of `stop_`, scanning left to right. -/
def dropStopMarks : List Char → List Char
  | 's' :: 't' :: 'o' :: 'p' :: '_' :: rest => dropStopMarks rest
  | c :: rest => c :: dropStopMarks rest
  | [] => []

/-- The bot id extracted from the callback data by `stop_specific_bot`. -/
def extractBotId (callback_data : String) : String :=
  ⟨dropStopMarks callback_data.data⟩

/-- Source `stop_specific_bot`: extract the id from the callback data; if
it is a key of `processes`, `remove_bot` it and confirm, else answer that
the bot was not found, touching nothing. -/
def stop_specific_bot (m : BotManager) (callback_data : String) :
    StopResult × BotManager :=
  let bot_id := extractBotId callback_data
  if (keys m.processes).contains bot_id then
    (StopResult.stopped bot_id, m.remove_bot bot_id)
  else (StopResult.notFound, m)

/-- A fresh manager before any operation: both dicts empty, no file yet
(the state `__init__` produces when `running_bots.json` does not exist). -/
def initialManager : BotManager := ⟨[], [], FileState.missing⟩

/-- Written from the spec's words (§4.1 `addWorker`), for comparison with
the source handler: preconditions checked in order with the first failure
winning — the credential must pass the validator, must not already be
present, and the count must be below `MaxWorkers`; on success mint a fresh
WorkerId from the timestamp, spawn a WorkerHandle, insert the record,
persist the snapshot and return the WorkerId. -/
def addWorkerSpec (m : BotManager) (credential : String)
    (validatorSays : Bool) (now : String) (e : Bool) :
    AddResult × BotManager :=
  if validatorSays = false then (AddResult.invalidCredential, m)
  else if (dictValues m.tokens).contains credential then
    (AddResult.duplicateCredential, m)
  else if m.get_bot_count < MAX_BOTS then
    let workerId := mint_id now
    (AddResult.success workerId,
     m.add_bot workerId credential
       (BotProcess.mkStarted credential workerId e))
  else (AddResult.capacityExceeded, m)

/-- States reachable from an empty registry by any sequence of
`handle_token` (addWorker) and `remove_bot` (removeWorker) operations,
under arbitrary validator answers, timestamps and process behaviours. -/
inductive Reach : BotManager → Prop where
  | init : Reach initialManager
  | add (text : String) (tokenValid : Bool) (now : String) (e : Bool)
      {m : BotManager} : Reach m →
      Reach (handle_token m text tokenValid now e).2
  | remove (bot_id : String) {m : BotManager} : Reach m →
      Reach (m.remove_bot bot_id)

/-- Environment where every `process.start()` raises (used to exhibit the
recovery state in which no saved bot could be re-spawned). -/
def envAllFail : String → String → Option Bool := fun _ _ => none

/-- Environment where starting bot `b` raises and every other start
succeeds. -/
def envFailB : String → String → Option Bool :=
  fun bot_id _ => if bot_id = "b" then none else some true

/-- A persisted snapshot with two saved bots. -/
def twoBotFile : FileState :=
  FileState.data [("a", "ta"), ("b", "tb")]

/-- A persisted snapshot with three saved bots. -/
def threeBotFile : FileState :=
  FileState.data [("a", "ta"), ("b", "tb"), ("c", "tc")]

/-- A tracked process that ignores the terminate request: alive, and does
not exit within the `join(timeout=5)` grace period. -/
def stubbornProcess : BotProcess := ⟨"t", "a", true, false⟩

/-- A registry tracking only `stubbornProcess`, with its snapshot
persisted. -/
def stubbornManager : BotManager :=
  ⟨[("a", stubbornProcess)], [("a", "t")], FileState.data [("a", "t")]⟩

/-- First `handle_token` call of the same-second collision scenario:
token `t1`, validator approving, timestamp `20240101_000000`. -/
def collideStep1 : AddResult × BotManager :=
  handle_token initialManager "t1" true "20240101_000000" true

/-- Second `handle_token` call of the collision scenario: a different
token `t2`, the same timestamp second. -/
def collideStep2 : AddResult × BotManager :=
  handle_token collideStep1.2 "t2" true "20240101_000000" true

/-- A one-worker registry used to instantiate theorems with hypotheses. -/
def oneBotManager : BotManager :=
  ⟨[("w1", ⟨"tok1", "w1", true, true⟩)], [("w1", "tok1")],
    FileState.data [("w1", "tok1")]⟩

/-! ## Helper lemmas about the dict operations -/

theorem contains_eq_true_of_mem {l : List String} {a : String}
    (h : a ∈ l) : l.contains a = true := by
  simpa [List.contains, List.elem_iff] using h

theorem contains_eq_false_of_not_mem {l : List String} {a : String}
    (h : a ∉ l) : l.contains a = false := by
  simp only [List.contains]
  exact Bool.eq_false_iff.mpr (fun hc => h (List.elem_iff.mp hc))

theorem dictErase_of_not_mem {α : Type} {d : List (String × α)} {k : String}
    (h : k ∉ keys d) : dictErase d k = d := by
  induction d with
  | nil => rfl
  | cons hd tl ih =>
    obtain ⟨a, b⟩ := hd
    rw [keys, List.map_cons] at h
    rw [List.mem_cons, not_or] at h
    rw [dictErase, if_neg (fun hak => h.1 hak.symm), ih h.2]

theorem keys_dictErase_sublist {α : Type} (d : List (String × α))
    (k : String) : (keys (dictErase d k)).Sublist (keys d) := by
  induction d with
  | nil => simp [dictErase]
  | cons hd tl ih =>
    obtain ⟨a, b⟩ := hd
    by_cases hak : a = k
    · simp only [dictErase, if_pos hak, keys, List.map_cons]
      exact List.sublist_cons_of_sublist a (List.Sublist.refl _)
    · simp only [dictErase, if_neg hak, keys, List.map_cons]
      exact List.Sublist.cons₂ a ih

theorem values_dictErase_sublist {α : Type} (d : List (String × α))
    (k : String) : (dictValues (dictErase d k)).Sublist (dictValues d) := by
  induction d with
  | nil => simp [dictErase]
  | cons hd tl ih =>
    obtain ⟨a, b⟩ := hd
    by_cases hak : a = k
    · simp only [dictErase, if_pos hak, dictValues, List.map_cons]
      exact List.sublist_cons_of_sublist b (List.Sublist.refl _)
    · simp only [dictErase, if_neg hak, dictValues, List.map_cons]
      exact List.Sublist.cons₂ b ih

theorem not_mem_keys_dictErase {α : Type} {d : List (String × α)}
    {k : String} (h : (keys d).Nodup) : k ∉ keys (dictErase d k) := by
  induction d with
  | nil => simp [dictErase, keys]
  | cons hd tl ih =>
    obtain ⟨a, b⟩ := hd
    rw [keys, List.map_cons, List.nodup_cons] at h
    by_cases hak : a = k
    · rw [dictErase, if_pos hak]
      exact fun hk => h.1 (hak ▸ hk)
    · rw [dictErase, if_neg hak, keys, List.map_cons, List.mem_cons]
      rintro (hk | hk)
      · exact hak hk.symm
      · exact ih h.2 hk

theorem length_dictErase_le {α : Type} (d : List (String × α))
    (k : String) : (dictErase d k).length ≤ d.length := by
  induction d with
  | nil => simp [dictErase]
  | cons hd tl ih =>
    obtain ⟨a, b⟩ := hd
    by_cases hak : a = k
    · simp only [dictErase, if_pos hak, List.length_cons]
      exact Nat.le_succ _
    · simp only [dictErase, if_neg hak, List.length_cons]
      exact Nat.succ_le_succ ih

theorem length_dictSet_le {α : Type} (d : List (String × α)) (k : String)
    (v : α) : (dictSet d k v).length ≤ d.length + 1 := by
  induction d with
  | nil => simp [dictSet]
  | cons hd tl ih =>
    obtain ⟨a, b⟩ := hd
    by_cases hak : a = k
    · simp only [dictSet, if_pos hak, List.length_cons]
      exact Nat.le_succ _
    · simp only [dictSet, if_neg hak, List.length_cons]
      exact Nat.succ_le_succ ih

theorem mem_dictSet {α : Type} {d : List (String × α)} {k : String}
    {v : α} {p : String × α} (h : p ∈ dictSet d k v) :
    p = (k, v) ∨ p ∈ d := by
  induction d with
  | nil => exact Or.inl (by simpa [dictSet] using h)
  | cons hd tl ih =>
    obtain ⟨a, b⟩ := hd
    by_cases hak : a = k
    · rw [dictSet, if_pos hak, List.mem_cons] at h
      rcases h with h | h
      · exact Or.inl h
      · exact Or.inr (List.mem_cons_of_mem _ h)
    · rw [dictSet, if_neg hak, List.mem_cons] at h
      rcases h with h | h
      · exact Or.inr (h ▸ List.mem_cons_self _ _)
      · rcases ih h with h | h
        · exact Or.inl h
        · exact Or.inr (List.mem_cons_of_mem _ h)

theorem mem_values_dictSet {α : Type} {d : List (String × α)} {k : String}
    {v x : α} (h : x ∈ dictValues (dictSet d k v)) :
    x = v ∨ x ∈ dictValues d := by
  rw [dictValues, List.mem_map] at h
  obtain ⟨p, hp, hx⟩ := h
  rcases mem_dictSet hp with h | h
  · exact Or.inl (hx ▸ h ▸ rfl)
  · exact Or.inr (hx ▸ List.mem_map_of_mem Prod.snd h)

theorem nodup_values_dictSet {α : Type} {d : List (String × α)}
    {k : String} {v : α} (hnd : (dictValues d).Nodup)
    (hv : v ∉ dictValues d) : (dictValues (dictSet d k v)).Nodup := by
  induction d with
  | nil => simp [dictSet, dictValues]
  | cons hd tl ih =>
    obtain ⟨a, b⟩ := hd
    rw [dictValues, List.map_cons, List.nodup_cons] at hnd
    rw [dictValues, List.map_cons, List.mem_cons, not_or] at hv
    by_cases hak : a = k
    · rw [dictSet, if_pos hak, dictValues, List.map_cons, List.nodup_cons]
      exact ⟨fun hvm => hv.2 hvm, hnd.2⟩
    · rw [dictSet, if_neg hak, dictValues, List.map_cons, List.nodup_cons]
      constructor
      · intro hbm
        rcases mem_values_dictSet hbm with h | h
        · exact hv.1 h.symm
        · exact hnd.1 h
      · exact ih hnd.2 hv.2

theorem dictSet_of_not_mem {α : Type} {d : List (String × α)} {k : String}
    (v : α) (h : k ∉ keys d) : dictSet d k v = d ++ [(k, v)] := by
  induction d with
  | nil => rfl
  | cons hd tl ih =>
    obtain ⟨a, b⟩ := hd
    rw [keys, List.map_cons, List.mem_cons, not_or] at h
    rw [dictSet, if_neg (fun hak => h.1 hak.symm), List.cons_append, ih h.2]

theorem dictGet_eq_none_of_not_mem {α : Type} {d : List (String × α)}
    {k : String} (h : k ∉ keys d) : dictGet d k = none := by
  induction d with
  | nil => rfl
  | cons hd tl ih =>
    obtain ⟨a, b⟩ := hd
    rw [keys, List.map_cons, List.mem_cons, not_or] at h
    rw [dictGet, if_neg (fun hak => h.1 hak.symm), ih h.2]

theorem foldl_dictErase_keys {α : Type} (d : List (String × α)) :
    List.foldl (fun t k => dictErase t k) d (keys d) = [] := by
  induction d with
  | nil => rfl
  | cons hd tl ih =>
    obtain ⟨a, b⟩ := hd
    rw [keys, List.map_cons, List.foldl_cons]
    have h1 : dictErase ((a, b) :: tl) a = tl := by rw [dictErase, if_pos rfl]
    rw [h1]
    exact ih

theorem foldl_dictErase_of_sub {α : Type} (ks : List String) :
    ∀ (t : List (String × α)), (keys t).Nodup →
    (∀ x ∈ keys t, x ∈ ks) →
    List.foldl (fun d k => dictErase d k) t ks = [] := by
  induction ks with
  | nil =>
    intro t _ hsub
    cases t with
    | nil => rfl
    | cons hd tl => exact absurd (hsub hd.1 (by simp [keys])) (by simp)
  | cons k ks ih =>
    intro t hnd hsub
    rw [List.foldl_cons]
    refine ih (dictErase t k) ((keys_dictErase_sublist t k).nodup hnd) ?_
    intro x hx
    have hxt : x ∈ keys t := (keys_dictErase_sublist t k).mem hx
    have hxk : x ≠ k := fun he => not_mem_keys_dictErase hnd (he ▸ hx)
    rcases List.mem_cons.mp (hsub x hxt) with h | h
    · exact absurd h hxk
    · exact h

/-! ## Lemmas about the registry operations -/

theorem not_mem_of_dictGet_eq_none {α : Type} {d : List (String × α)}
    {k : String} (hg : dictGet d k = none) : k ∉ keys d := by
  induction d with
  | nil => simp [keys]
  | cons hd tl ih =>
    obtain ⟨a, b⟩ := hd
    simp only [dictGet] at hg
    by_cases hab : a = k
    · rw [if_pos hab] at hg
      exact Option.noConfusion hg
    · rw [if_neg hab] at hg
      rw [keys, List.map_cons, List.mem_cons]
      rintro (h | h)
      · exact hab h.symm
      · exact ih hg h

theorem remove_bot_processes (m : BotManager) (bot_id : String) :
    (m.remove_bot bot_id).processes = dictErase m.processes bot_id := by
  rw [BotManager.remove_bot, BotManager.remove_bot_run]
  cases hg : dictGet m.processes bot_id with
  | some p =>
    simp only [hg]
    split
    · rfl
    · rfl
  | none =>
    simp only [hg]
    rw [dictErase_of_not_mem (not_mem_of_dictGet_eq_none hg)]
    split
    · rfl
    · rfl

theorem remove_bot_tokens (m : BotManager) (bot_id : String) :
    (m.remove_bot bot_id).tokens = dictErase m.tokens bot_id := by
  rw [BotManager.remove_bot, BotManager.remove_bot_run]
  cases hg : dictGet m.processes bot_id with
  | some p =>
    simp only [hg]
    by_cases hc : bot_id ∈ keys m.tokens
    · rw [if_pos (contains_eq_true_of_mem hc)]
      rfl
    · rw [if_neg (by rw [contains_eq_false_of_not_mem hc]; exact Bool.false_ne_true)]
      exact (dictErase_of_not_mem hc).symm
  | none =>
    simp only [hg]
    by_cases hc : bot_id ∈ keys m.tokens
    · rw [if_pos (contains_eq_true_of_mem hc)]
      rfl
    · rw [if_neg (by rw [contains_eq_false_of_not_mem hc]; exact Bool.false_ne_true)]
      exact (dictErase_of_not_mem hc).symm

theorem remove_bot_file_sync (m : BotManager) (bot_id : String)
    (h : m.file = FileState.data m.tokens) :
    (m.remove_bot bot_id).file = FileState.data ((m.remove_bot bot_id).tokens) := by
  rw [remove_bot_tokens, BotManager.remove_bot, BotManager.remove_bot_run]
  cases hg : dictGet m.processes bot_id with
  | some p =>
    simp only [hg]
    by_cases hc : bot_id ∈ keys m.tokens
    · rw [if_pos (contains_eq_true_of_mem hc)]
      rfl
    · rw [if_neg (by rw [contains_eq_false_of_not_mem hc]; exact Bool.false_ne_true)]
      rw [dictErase_of_not_mem hc]
      exact h
  | none =>
    simp only [hg]
    by_cases hc : bot_id ∈ keys m.tokens
    · rw [if_pos (contains_eq_true_of_mem hc)]
      rfl
    · rw [if_neg (by rw [contains_eq_false_of_not_mem hc]; exact Bool.false_ne_true)]
      rw [dictErase_of_not_mem hc]
      exact h

theorem foldl_remove_bot_processes (ks : List String) :
    ∀ m : BotManager, (ks.foldl BotManager.remove_bot m).processes =
      List.foldl (fun d k => dictErase d k) m.processes ks := by
  induction ks with
  | nil => intro m; rfl
  | cons k ks ih =>
    intro m
    rw [List.foldl_cons, List.foldl_cons, ih, remove_bot_processes]

theorem foldl_remove_bot_tokens (ks : List String) :
    ∀ m : BotManager, (ks.foldl BotManager.remove_bot m).tokens =
      List.foldl (fun d k => dictErase d k) m.tokens ks := by
  induction ks with
  | nil => intro m; rfl
  | cons k ks ih =>
    intro m
    rw [List.foldl_cons, List.foldl_cons, ih, remove_bot_tokens]

theorem foldl_remove_bot_file_sync (ks : List String) :
    ∀ m : BotManager, m.file = FileState.data m.tokens →
      (ks.foldl BotManager.remove_bot m).file =
        FileState.data ((ks.foldl BotManager.remove_bot m).tokens) := by
  induction ks with
  | nil => intro m h; exact h
  | cons k ks ih =>
    intro m h
    rw [List.foldl_cons]
    exact ih _ (remove_bot_file_sync m k h)

theorem handle_token_first_eq_success {m : BotManager} {text : String}
    {tokenValid : Bool} {now : String} {e : Bool} {i : String}
    (h : (handle_token m text tokenValid now e).1 = AddResult.success i) :
    i = mint_id now := by
  rw [handle_token] at h
  by_cases hv : tokenValid
  · rw [if_neg (by simp [hv])] at h
    by_cases hu : m.is_token_used (pyStrip text)
    · rw [if_pos hu] at h
      exact absurd h (by simp)
    · rw [if_neg hu] at h
      by_cases hc : MAX_BOTS ≤ m.get_bot_count
      · rw [if_pos hc] at h
        exact absurd h (by simp)
      · rw [if_neg hc] at h
        exact (AddResult.success.injEq .. ▸ h).symm
  · rw [if_pos (by simp [Bool.not_eq_true] at hv; simp [hv])] at h
    exact absurd h (by simp)

theorem mint_id_inj {s1 s2 : String} (h : mint_id s1 = mint_id s2) :
    s1 = s2 := by
  rw [mint_id, mint_id] at h
  have h2 : ("bot_" ++ s1).data = ("bot_" ++ s2).data := congrArg String.data h
  rw [String.data_append, String.data_append] at h2
  exact String.ext (List.append_cancel_left h2)

theorem restartLoop_mem (env : String → String → Option Bool)
    (l : List (String × String)) :
    ∀ (acc : List (String × BotProcess)) (pr : String × BotProcess),
      pr ∈ (restartLoop env l acc).1 →
      (pr.2.bot_id = pr.1 ∧ (pr.1, pr.2.token) ∈ l) ∨ pr ∈ acc := by
  induction l with
  | nil => intro acc pr h; exact Or.inr h
  | cons hd rest ih =>
    obtain ⟨bot_id, token⟩ := hd
    intro acc pr h
    rw [restartLoop] at h
    cases he : env bot_id token with
    | some e =>
      rw [he] at h
      rcases ih _ pr h with hgood | hacc
      · exact Or.inl ⟨hgood.1, List.mem_cons_of_mem _ hgood.2⟩
      · rcases mem_dictSet hacc with heq | hold
        · refine Or.inl ⟨?_, ?_⟩
          · rw [heq]
            rfl
          · rw [heq]
            exact List.mem_cons_self _ _
        · exact Or.inr hold
    | none =>
      rw [he] at h
      exact Or.inr h

theorem restartLoop_all_ok (env : String → String → Option Bool)
    (l : List (String × String)) :
    ∀ acc : List (String × BotProcess),
      (∀ p ∈ l, env p.1 p.2 ≠ none) → (keys acc ++ keys l).Nodup →
      keys (restartLoop env l acc).1 = keys acc ++ keys l ∧
        (restartLoop env l acc).2 = false := by
  induction l with
  | nil => intro acc _ _; simp [restartLoop, keys]
  | cons hd rest ih =>
    obtain ⟨bot_id, token⟩ := hd
    intro acc hok hnd
    have hbd : env bot_id token ≠ none := hok _ (List.mem_cons_self _ _)
    cases he : env bot_id token with
    | none => exact absurd he hbd
    | some e =>
      rw [restartLoop, he]
      have hfresh : bot_id ∉ keys acc := by
        intro hmem
        simp only [keys, List.map_cons] at hnd
        have := (List.nodup_append.mp hnd).2.2
        exact this hmem (List.mem_cons_self _ _)
      have hkeys : keys (dictSet acc bot_id (BotProcess.mkStarted token bot_id e)) =
          keys acc ++ [bot_id] := by
        rw [dictSet_of_not_mem _ hfresh, keys, List.map_append]
        rfl
      have hnd2 : (keys (dictSet acc bot_id (BotProcess.mkStarted token bot_id e)) ++
          keys rest).Nodup := by
        rw [hkeys, List.append_assoc]
        simpa [keys] using hnd
      have hok2 : ∀ p ∈ rest, env p.1 p.2 ≠ none :=
        fun p hp => hok p (List.mem_cons_of_mem _ hp)
      obtain ⟨h1, h2⟩ := ih _ hok2 hnd2
      refine ⟨?_, h2⟩
      rw [h1, hkeys, List.append_assoc]
      rfl

theorem restartLoop_fails_at (env : String → String → Option Bool)
    (bot_id token : String) (post : List (String × String))
    (hfail : env bot_id token = none) (pre : List (String × String)) :
    ∀ acc : List (String × BotProcess),
      (∀ p ∈ pre, env p.1 p.2 ≠ none) → (keys acc ++ keys pre).Nodup →
      keys (restartLoop env (pre ++ (bot_id, token) :: post) acc).1 =
        keys acc ++ keys pre ∧
        (restartLoop env (pre ++ (bot_id, token) :: post) acc).2 = true := by
  induction pre with
  | nil =>
    intro acc _ _
    rw [List.nil_append, restartLoop, hfail]
    simp [keys]
  | cons hd rest ih =>
    obtain ⟨a, t⟩ := hd
    intro acc hok hnd
    have hbd : env a t ≠ none := hok _ (List.mem_cons_self _ _)
    cases he : env a t with
    | none => exact absurd he hbd
    | some e =>
      rw [List.cons_append, restartLoop, he]
      have hfresh : a ∉ keys acc := by
        intro hmem
        simp only [keys, List.map_cons] at hnd
        have := (List.nodup_append.mp hnd).2.2
        exact this hmem (List.mem_cons_self _ _)
      have hkeys : keys (dictSet acc a (BotProcess.mkStarted t a e)) =
          keys acc ++ [a] := by
        rw [dictSet_of_not_mem _ hfresh, keys, List.map_append]
        rfl
      have hnd2 : (keys (dictSet acc a (BotProcess.mkStarted t a e)) ++
          keys rest).Nodup := by
        rw [hkeys, List.append_assoc]
        simpa [keys] using hnd
      have hok2 : ∀ p ∈ rest, env p.1 p.2 ≠ none :=
        fun p hp => hok p (List.mem_cons_of_mem _ hp)
      obtain ⟨h1, h2⟩ := ih _ hok2 hnd2
      refine ⟨?_, h2⟩
      rw [h1, hkeys, List.append_assoc]
      rfl

/-! ## Branch characterisation of the add handler -/

theorem handle_token_snd (m : BotManager) (text : String) (tokenValid : Bool)
    (now : String) (e : Bool) :
    (handle_token m text tokenValid now e).2 = m ∨
      (tokenValid = true ∧ m.is_token_used (pyStrip text) = false ∧
        m.get_bot_count < MAX_BOTS ∧
        (handle_token m text tokenValid now e).2 =
          m.add_bot (mint_id now) (pyStrip text)
            (BotProcess.mkStarted (pyStrip text) (mint_id now) e)) := by
  cases tokenValid with
  | false => exact Or.inl (by simp [handle_token])
  | true =>
    cases hu : m.is_token_used (pyStrip text) with
    | true => exact Or.inl (by simp [handle_token, hu])
    | false =>
      by_cases hc : MAX_BOTS ≤ m.get_bot_count
      · exact Or.inl (by simp [handle_token, hu, hc])
      · exact Or.inr ⟨rfl, rfl, Nat.lt_of_not_le hc,
          by simp [handle_token, hu, hc]⟩

/-! ## The claims -/

/-- C1: for every sequence of `handle_token`/`add_bot` and `remove_bot`
operations starting from an empty registry, at every point the number of
tracked workers `get_bot_count` is at most `MAX_BOTS` (10) and no two
tracked records share the same token. -/
theorem registry_capacity_and_uniqueness (m : BotManager) (h : Reach m) :
    m.get_bot_count ≤ MAX_BOTS ∧ (dictValues m.tokens).Nodup := by
  induction h with
  | init =>
    refine ⟨?_, ?_⟩
    · simp [initialManager, BotManager.get_bot_count, MAX_BOTS]
    · simp [initialManager, dictValues]
  | @add text tokenValid now e m hm ih =>
    rcases handle_token_snd m text tokenValid now e with heq | ⟨_, hu, hc, heq⟩
    · rw [heq]
      exact ih
    · rw [heq]
      constructor
      · simp only [BotManager.add_bot, BotManager.save_bots,
          BotManager.get_bot_count]
        exact le_trans (length_dictSet_le ..) hc
      · simp only [BotManager.add_bot, BotManager.save_bots]
        refine nodup_values_dictSet ih.2 ?_
        intro hmem
        rw [BotManager.is_token_used, contains_eq_true_of_mem hmem] at hu
        exact Bool.noConfusion hu
  | @remove bot_id m hm ih =>
    constructor
    · rw [BotManager.get_bot_count, remove_bot_processes]
      exact le_trans (length_dictErase_le ..) ih.1
    · rw [remove_bot_tokens]
      exact (values_dictErase_sublist ..).nodup ih.2

/-- Witness for C1: the invariant evaluated on the concrete state reached
by one successful add from the empty registry. -/
theorem registry_capacity_and_uniqueness_witness :
    (handle_token initialManager "t1" true "A" true).2.get_bot_count ≤
        MAX_BOTS ∧
      (dictValues (handle_token initialManager "t1" true "A" true).2.tokens).Nodup :=
  registry_capacity_and_uniqueness _ (Reach.add "t1" true "A" true Reach.init)

/-- C2: `handle_token` checks its preconditions in a fixed order with the
first failure winning, exactly as the spec's `addWorker` describes:
invalid credential, then duplicate, then capacity, and on success it mints
a WorkerId from the timestamp, spawns the worker, inserts the record,
persists the snapshot and returns the WorkerId.  Stated as a refinement:
the source handler equals the function written from the spec's words. -/
theorem handle_token_refines_addWorker (m : BotManager) (text : String)
    (tokenValid : Bool) (now : String) (e : Bool) :
    handle_token m text tokenValid now e =
      addWorkerSpec m (pyStrip text) tokenValid now e := by
  cases tokenValid with
  | false => simp [handle_token, addWorkerSpec]
  | true =>
    by_cases hmem : pyStrip text ∈ dictValues m.tokens
    · simp [handle_token, addWorkerSpec, BotManager.is_token_used, hmem]
    · by_cases hc : MAX_BOTS ≤ m.get_bot_count
      · simp [handle_token, addWorkerSpec, BotManager.is_token_used, hmem, hc,
          Nat.not_lt.mpr hc]
      · simp [handle_token, addWorkerSpec, BotManager.is_token_used, hmem, hc,
          Nat.lt_of_not_le hc]

/-- C9: saving the registry's WorkerId→Credential mapping and loading it
back with no intervening mutation recovers exactly the same mapping,
whatever the re-spawn environment does. -/
theorem save_load_round_trip (m : BotManager)
    (env : String → String → Option Bool) :
    (load_saved_bots env (m.save_bots).file).tokens = m.tokens := rfl

/-- C10: calling the stop callback with an id that is not tracked answers
NotFound and leaves the whole state untouched, and `remove_bot` on an id
present in neither map is the identity on the state. -/
theorem remove_unknown_id_no_op (m : BotManager) (callback_data : String)
    (hp : extractBotId callback_data ∉ keys m.processes)
    (ht : extractBotId callback_data ∉ keys m.tokens) :
    stop_specific_bot m callback_data = (StopResult.notFound, m) ∧
      m.remove_bot (extractBotId callback_data) = m := by
  have hrb : m.remove_bot (extractBotId callback_data) = m := by
    rw [BotManager.remove_bot, BotManager.remove_bot_run]
    simp only [dictGet_eq_none_of_not_mem hp]
    rw [if_neg (by rw [contains_eq_false_of_not_mem ht]; exact Bool.false_ne_true)]
  refine ⟨?_, hrb⟩
  rw [stop_specific_bot]
  rw [if_neg (by rw [contains_eq_false_of_not_mem hp]; exact Bool.false_ne_true)]

/-- Witness for C10 at a concrete one-worker registry and the callback
data of an unknown bot. -/
theorem remove_unknown_id_no_op_witness :
    stop_specific_bot oneBotManager "stop_zzz" =
        (StopResult.notFound, oneBotManager) ∧
      oneBotManager.remove_bot (extractBotId "stop_zzz") = oneBotManager :=
  remove_unknown_id_no_op oneBotManager "stop_zzz" (by decide) (by decide)

/-- C3 counterexample: the state produced by `load_saved_bots` when the
first re-spawn of a two-entry snapshot raises is a reachable registry
state with no tracked process; `stop_all_bots` on it brings the count to
0 but never touches the persisted snapshot, which keeps both entries. -/
theorem stop_all_stale_snapshot_cex :
    (BotManager.stop_all_bots (load_saved_bots envAllFail twoBotFile)).get_bot_count = 0 ∧
      (BotManager.stop_all_bots (load_saved_bots envAllFail twoBotFile)).file =
        FileState.data [("a", "ta"), ("b", "tb")] ∧
      ((BotManager.stop_all_bots (load_saved_bots envAllFail twoBotFile)).file).entries ≠ [] := by
  refine ⟨rfl, rfl, ?_⟩
  decide

/-- C3 amended: `stop_all_bots` always brings `get_bot_count` to 0, and
when the persisted snapshot matches the tokens map, the tokens keys are
duplicate-free and every tokens entry has a tracked process, the tokens
map and the persisted snapshot are empty afterwards (the in-sync case;
states left by a recovery spawn failure can keep stale snapshot
entries). -/
theorem stop_all_bots_clears (m : BotManager)
    (hfile : m.file = FileState.data m.tokens)
    (hnd : (keys m.tokens).Nodup)
    (hsub : ∀ x ∈ keys m.tokens, x ∈ keys m.processes) :
    (m.stop_all_bots).get_bot_count = 0 ∧ (m.stop_all_bots).tokens = [] ∧
      (m.stop_all_bots).file = FileState.data [] := by
  have hp : (m.stop_all_bots).processes = [] := by
    rw [BotManager.stop_all_bots, foldl_remove_bot_processes]
    exact foldl_dictErase_keys m.processes
  have htk : (m.stop_all_bots).tokens = [] := by
    rw [BotManager.stop_all_bots, foldl_remove_bot_tokens]
    exact foldl_dictErase_of_sub (keys m.processes) m.tokens hnd hsub
  refine ⟨?_, htk, ?_⟩
  · rw [BotManager.get_bot_count, hp]
    rfl
  · rw [BotManager.stop_all_bots] at htk ⊢
    rw [foldl_remove_bot_file_sync (keys m.processes) m hfile, htk]

/-- Witness for C3 (amended) at a concrete in-sync one-worker registry. -/
theorem stop_all_bots_clears_witness :
    (BotManager.stop_all_bots oneBotManager).get_bot_count = 0 ∧
      (BotManager.stop_all_bots oneBotManager).tokens = [] ∧
      (BotManager.stop_all_bots oneBotManager).file = FileState.data [] :=
  stop_all_bots_clears oneBotManager rfl (by decide) (by decide)

/-- C4 counterexample: a tracked process that is alive and does not exit
within the 5-second grace period after `terminate()` is still alive once
`remove_bot` returns — the code never force-stops it — although its
record is removed and the snapshot persisted. -/
theorem remove_bot_leaves_stubborn_alive :
    ((BotManager.remove_bot_run stubbornManager "a").2).map BotProcess.alive =
        some true ∧
      BotManager.remove_bot stubbornManager "a" = ⟨[], [], FileState.data []⟩ :=
  ⟨rfl, rfl⟩

/-- C4 amended: for a tracked WorkerId, `remove_bot` requests termination
of the live process, waits up to the bounded 5-second grace period, then
removes the record from both maps and persists the snapshot
unconditionally; there is no force-stop, so the process is alive
afterwards exactly when it was alive and does not exit on the terminate
request within the grace period. -/
theorem remove_bot_terminate_wait_remove (m : BotManager) (bot_id : String)
    (p : BotProcess) (h : dictGet m.processes bot_id = some p) :
    BotManager.remove_bot_run m bot_id =
      ({ processes := dictErase m.processes bot_id,
         tokens := dictErase m.tokens bot_id,
         file := if bot_id ∈ keys m.tokens then
             FileState.data (dictErase m.tokens bot_id) else m.file },
       some (terminateJoin p)) ∧
      (terminateJoin p).alive = (p.alive && !p.exitsOnTerminate) := by
  constructor
  · rw [BotManager.remove_bot_run]
    simp only [h]
    by_cases hc : bot_id ∈ keys m.tokens
    · rw [if_pos (contains_eq_true_of_mem hc), if_pos hc]
      rfl
    · rw [if_neg (by rw [contains_eq_false_of_not_mem hc]; exact Bool.false_ne_true),
        if_neg hc]
      rw [dictErase_of_not_mem hc]
  · cases hpa : p.alive <;> simp [terminateJoin, hpa]

/-- Witness for C4 (amended) at the concrete one-worker registry. -/
theorem remove_bot_terminate_wait_remove_witness :
    BotManager.remove_bot_run oneBotManager "w1" =
      ({ processes := dictErase oneBotManager.processes "w1",
         tokens := dictErase oneBotManager.tokens "w1",
         file := if "w1" ∈ keys oneBotManager.tokens then
             FileState.data (dictErase oneBotManager.tokens "w1")
           else oneBotManager.file },
       some (terminateJoin ⟨"tok1", "w1", true, true⟩)) ∧
      (terminateJoin (⟨"tok1", "w1", true, true⟩ : BotProcess)).alive =
        (true && !true) :=
  remove_bot_terminate_wait_remove oneBotManager "w1" ⟨"tok1", "w1", true, true⟩ rfl

/-- C5: every process inserted by recovery carries the original stored
WorkerId as its `bot_id` (the registry key), paired with its stored
credential — recovery never mints a fresh id. -/
theorem recovery_reuses_original_worker_id
    (env : String → String → Option Bool) (tks : List (String × String))
    (pr : String × BotProcess)
    (h : pr ∈ (load_saved_bots env (FileState.data tks)).processes) :
    pr.2.bot_id = pr.1 ∧ (pr.1, pr.2.token) ∈ tks := by
  rcases restartLoop_mem env tks [] pr h with hgood | habs
  · exact hgood
  · exact absurd habs (List.not_mem_nil pr)

/-- Witness for C5 at a one-entry snapshot whose re-spawn succeeds. -/
theorem recovery_reuses_original_worker_id_witness :
    ("w1", BotProcess.mkStarted "tok1" "w1" true).2.bot_id =
        ("w1", BotProcess.mkStarted "tok1" "w1" true).1 ∧
      (("w1", BotProcess.mkStarted "tok1" "w1" true).1,
        ("w1", BotProcess.mkStarted "tok1" "w1" true).2.token) ∈
          [("w1", "tok1")] :=
  recovery_reuses_original_worker_id (fun _ _ => some true) [("w1", "tok1")]
    ("w1", BotProcess.mkStarted "tok1" "w1" true) (by decide)

/-- C6 counterexample: two successful adds with different credentials in
the same timestamp second both return the very same WorkerId
`bot_20240101_000000`, and the second insert silently replaces the first
record: only the second token remains tracked. -/
theorem same_second_collision_cex :
    collideStep1.1 = AddResult.success "bot_20240101_000000" ∧
      collideStep2.1 = AddResult.success "bot_20240101_000000" ∧
      collideStep2.2.tokens = [("bot_20240101_000000", "t2")] ∧
      collideStep2.2.get_bot_count = 1 :=
  ⟨rfl, rfl, rfl, rfl⟩

/-- C6 amended: WorkerIds are a pure function of the creation timestamp,
so two successful `handle_token` calls whose timestamps differ mint
distinct WorkerIds; two calls within the same timestamp second mint the
same id and the insert silently replaces the earlier record. -/
theorem distinct_timestamps_mint_distinct_ids
    (m1 m2 : BotManager) (t1 t2 : String) (v1 v2 : Bool) (s1 s2 : String)
    (e1 e2 : Bool) (i1 i2 : String)
    (h1 : (handle_token m1 t1 v1 s1 e1).1 = AddResult.success i1)
    (h2 : (handle_token m2 t2 v2 s2 e2).1 = AddResult.success i2)
    (hs : s1 ≠ s2) : i1 ≠ i2 := by
  have q1 := handle_token_first_eq_success h1
  have q2 := handle_token_first_eq_success h2
  intro hi
  apply hs
  apply mint_id_inj
  rw [← q1, ← q2]
  exact hi

/-- Witness for C6 (amended): two successful adds at distinct timestamps
yield distinct ids. -/
theorem distinct_timestamps_mint_distinct_ids_witness :
    ("bot_A" : String) ≠ "bot_B" :=
  distinct_timestamps_mint_distinct_ids initialManager initialManager
    "t1" "t2" true true "A" "B" true true "bot_A" "bot_B" rfl rfl (by decide)

/-- C7 counterexample: recovering a three-entry snapshot whose second
re-spawn raises leaves only the first entry with a process — the failing
entry is not dropped from the tokens map, and the third entry is never
re-spawned: the failure aborts the rest of recovery. -/
theorem recovery_abort_cex :
    keys (load_saved_bots envFailB threeBotFile).processes = ["a"] ∧
      (load_saved_bots envFailB threeBotFile).tokens =
        [("a", "ta"), ("b", "tb"), ("c", "tc")] :=
  ⟨rfl, rfl⟩

/-- C7 amended: a spawn failure during recovery is caught and logged but
aborts the re-spawn loop: the entries before the failing one get
processes, the failing entry and every later entry do not, and all
entries (the failing one included) remain in the tokens map. -/
theorem recovery_spawn_failure_aborts (env : String → String → Option Bool)
    (pre post : List (String × String)) (bot_id token : String)
    (hfail : env bot_id token = none)
    (hok : ∀ p ∈ pre, env p.1 p.2 ≠ none)
    (hnd : (keys pre).Nodup) :
    keys (load_saved_bots env
        (FileState.data (pre ++ (bot_id, token) :: post))).processes =
        keys pre ∧
      (load_saved_bots env
        (FileState.data (pre ++ (bot_id, token) :: post))).tokens =
        pre ++ (bot_id, token) :: post ∧
      (load_saved_bots_run env
        (FileState.data (pre ++ (bot_id, token) :: post))).2 = true := by
  obtain ⟨h1, h2⟩ := restartLoop_fails_at env bot_id token post hfail pre []
    hok (by simpa [keys] using hnd)
  refine ⟨?_, rfl, ?_⟩
  · simpa [load_saved_bots, load_saved_bots_run, keys] using h1
  · simpa [load_saved_bots_run] using h2

/-- Witness for C7 (amended) on the three-entry snapshot failing at its
middle entry. -/
theorem recovery_spawn_failure_aborts_witness :
    keys (load_saved_bots envFailB
        (FileState.data ([("a", "ta")] ++ ("b", "tb") :: [("c", "tc")]))).processes =
        keys [("a", "ta")] ∧
      (load_saved_bots envFailB
        (FileState.data ([("a", "ta")] ++ ("b", "tb") :: [("c", "tc")]))).tokens =
        [("a", "ta")] ++ ("b", "tb") :: [("c", "tc")] ∧
      (load_saved_bots_run envFailB
        (FileState.data ([("a", "ta")] ++ ("b", "tb") :: [("c", "tc")]))).2 = true :=
  recovery_spawn_failure_aborts envFailB [("a", "ta")] [("c", "tc")] "b" "tb"
    rfl (by decide) (by decide)

/-- C8: recovery re-spawns one worker per entry of a valid snapshot (when
every start succeeds, the process keys are exactly the snapshot keys and
the tokens map is the snapshot), and a missing or corrupt snapshot yields
an empty registry — the exception is caught, never unhandled. -/
theorem recovery_valid_and_corrupt (env : String → String → Option Bool)
    (tks : List (String × String))
    (hok : ∀ p ∈ tks, env p.1 p.2 ≠ none)
    (hnd : (keys tks).Nodup) :
    keys (load_saved_bots env (FileState.data tks)).processes = keys tks ∧
      (load_saved_bots env (FileState.data tks)).tokens = tks ∧
      load_saved_bots env FileState.missing = ⟨[], [], FileState.missing⟩ ∧
      load_saved_bots env FileState.corrupt = ⟨[], [], FileState.corrupt⟩ ∧
      (load_saved_bots env FileState.missing).get_bot_count = 0 ∧
      (load_saved_bots env FileState.corrupt).get_bot_count = 0 := by
  obtain ⟨h1, _⟩ := restartLoop_all_ok env tks [] hok (by simpa [keys] using hnd)
  refine ⟨?_, rfl, rfl, rfl, rfl, rfl⟩
  simpa [load_saved_bots, load_saved_bots_run, keys] using h1

/-- Witness for C8 on a concrete one-entry snapshot with a succeeding
spawn environment. -/
theorem recovery_valid_and_corrupt_witness :
    keys (load_saved_bots (fun _ _ => some true)
        (FileState.data [("w1", "tok1")])).processes = keys [("w1", "tok1")] ∧
      (load_saved_bots (fun _ _ => some true)
        (FileState.data [("w1", "tok1")])).tokens = [("w1", "tok1")] ∧
      load_saved_bots (fun _ _ => some true) FileState.missing =
        ⟨[], [], FileState.missing⟩ ∧
      load_saved_bots (fun _ _ => some true) FileState.corrupt =
        ⟨[], [], FileState.corrupt⟩ ∧
      (load_saved_bots (fun _ _ => some true) FileState.missing).get_bot_count = 0 ∧
      (load_saved_bots (fun _ _ => some true) FileState.corrupt).get_bot_count = 0 :=
  recovery_valid_and_corrupt (fun _ _ => some true) [("w1", "tok1")]
    (by decide) (by decide)
